import Mathlib

/-!
Verification of the saias-bot chat-bot plugins (party registry, points /
shop / lottery system, 369 counting game) against their natural-language
specification.  The Python modules under `bots/` are shallowly embedded as
pure Lean functions: the mutable dictionaries become association lists, the
sqlite tables become lists of rows, and every command handler becomes a
function from state to state paired with an abstract reply.  Randomness
(`random.randint`, `random.random`) is passed in explicitly as oracle
arguments.
-/

namespace SaiasBot

/- ───────────────────────── Python string primitives ───────────────────── -/

/-- Python `str.strip()` (whitespace trim on both ends). -/
def pyStrip (s : String) : String :=
  String.mk
    (((s.data.dropWhile Char.isWhitespace).reverse.dropWhile
        Char.isWhitespace).reverse)

/-- Python `str.lower()` (per-character lowering). -/
def pyLower (s : String) : String := String.mk (s.data.map Char.toLower)

/-- Worker for `splitWs`: accumulate the current word (reversed) while
scanning. -/
def splitWsChars : List Char → List Char → List String
  | [], acc => if acc = [] then [] else [String.mk acc.reverse]
  | c :: rest, acc =>
    if c.isWhitespace then
      (if acc = [] then [] else [String.mk acc.reverse]) ++
        splitWsChars rest []
    else splitWsChars rest (c :: acc)

/-- Python `str.split()` with no separator: split on whitespace runs,
dropping empty pieces. -/
def splitWs (s : String) : List String := splitWsChars s.data []

/-- Python `" ".join(ts)`. -/
def joinSpace : List String → String
  | [] => ""
  | [t] => t
  | t :: rest => t ++ " " ++ joinSpace rest

/-- Python `str.lstrip("@")`: drop leading `@` characters. -/
def lstripAt (s : String) : String := String.mk (s.data.dropWhile (· = '@'))

/-- Python `str.isdigit()` restricted to ASCII digits: non-empty and all
characters are digits. -/
def isDigitStr (s : String) : Bool := !s.isEmpty && s.data.all Char.isDigit

/-- Decimal value of a digit character list (how Python `int` reads a digit
string). -/
def charsVal (cs : List Char) : Nat :=
  cs.foldl (fun a c => 10 * a + (c.toNat - 48)) 0

/-- Python `int(s)` for a digit string. -/
def strToNat (s : String) : Nat := charsVal s.data

/-- Truthiness of an optional Python string (`if cls:`): `None` and the
empty string are falsy. -/
def optStrTruthy : Option String → Bool
  | none => false
  | some c => !c.isEmpty

/-- Substring test (Python `needle in hay`). -/
def containsSub (needle : List Char) : List Char → Bool
  | [] => needle.isEmpty
  | c :: t => List.isPrefixOf needle (c :: t) || containsSub needle t

/- ─────────────── decimal rendering, i.e. Python str(n) / %03d ─────────── -/

/-- Fuelled decimal rendering of a natural number (Python `str(n)`), fuel
sufficient whenever `n < fuel`. -/
def decReprAux : Nat → Nat → List Char
  | 0, _ => []
  | f + 1, n =>
    if n < 10 then [Nat.digitChar n]
    else decReprAux f (n / 10) ++ [Nat.digitChar (n % 10)]

/-- Decimal digit-character list of `n` (Python `str(n)` for `n ≥ 0`). -/
def decRepr (n : Nat) : List Char := decReprAux (n + 1) n

/-- Python `f"{n:03d}"`: decimal rendering left-padded with zeros to width
three. -/
def format3 (n : Nat) : String :=
  let s := decRepr n
  String.mk (List.replicate (3 - s.length) '0' ++ s)

/- ────────────────────────── association lists ─────────────────────────── -/

/-- Lookup in an insertion-ordered association list (Python `dict.get`). -/
def alookup (k : Int) : List (Int × α) → Option α
  | [] => none
  | (k', v) :: t => if k' = k then some v else alookup k t

/-- Python `d[k] = v`: replace the value of an existing key in place, or
append a fresh key at the end. -/
def aset (k : Int) (v : α) : List (Int × α) → List (Int × α)
  | [] => [(k, v)]
  | (k', v') :: t => if k' = k then (k, v) :: t else (k', v') :: aset k v t

/-- Python `d.pop(k, None)`: drop the entry with key `k` if present. -/
def apop (k : Int) : List (Int × α) → List (Int × α)
  | [] => []
  | (k', v') :: t => if k' = k then t else (k', v') :: apop k t

theorem mem_aset {k : Int} {v : α} {l : List (Int × α)} {x : Int × α}
    (h : x ∈ aset k v l) : x = (k, v) ∨ x ∈ l := by
  induction l with
  | nil => simp only [aset, List.mem_singleton] at h; exact Or.inl h
  | cons e t ih =>
    obtain ⟨ek, ev⟩ := e
    by_cases he : ek = k
    · simp only [aset, if_pos he, List.mem_cons] at h
      rcases h with h | h
      · exact Or.inl h
      · exact Or.inr (List.mem_cons_of_mem _ h)
    · simp only [aset, if_neg he, List.mem_cons] at h
      rcases h with h | h
      · exact Or.inr (by simp [h])
      · rcases ih h with h' | h'
        · exact Or.inl h'
        · exact Or.inr (List.mem_cons_of_mem _ h')

theorem alookup_aset_self {k : Int} {v : α} {l : List (Int × α)} :
    alookup k (aset k v l) = some v := by
  induction l with
  | nil => simp [aset, alookup]
  | cons e t ih =>
    obtain ⟨ek, ev⟩ := e
    by_cases he : ek = k
    · simp [aset, if_pos he, alookup]
    · simp only [aset, if_neg he, alookup, if_neg he]
      exact ih

theorem alookup_aset_ne {k k' : Int} {v : α} {l : List (Int × α)}
    (h : k' ≠ k) : alookup k' (aset k v l) = alookup k' l := by
  have hk : ¬ (k = k') := fun hh => h hh.symm
  induction l with
  | nil => simp only [aset, alookup, if_neg hk]
  | cons e t ih =>
    obtain ⟨ek, ev⟩ := e
    by_cases he : ek = k
    · simp only [aset, if_pos he, alookup, if_neg hk, he]
    · simp only [aset, if_neg he, alookup]
      by_cases he' : ek = k'
      · simp only [if_pos he']
      · simp only [if_neg he']
        exact ih

theorem mem_apop {k : Int} {l : List (Int × α)} {x : Int × α}
    (h : x ∈ apop k l) : x ∈ l := by
  induction l with
  | nil => simp [apop] at h
  | cons e t ih =>
    obtain ⟨ek, ev⟩ := e
    by_cases he : ek = k
    · simp only [apop, if_pos he] at h
      exact List.mem_cons_of_mem _ h
    · simp only [apop, if_neg he, List.mem_cons] at h
      rcases h with h | h
      · simp [h]
      · exact List.mem_cons_of_mem _ (ih h)

theorem alookup_apop_ne {k k' : Int} {l : List (Int × α)}
    (h : k' ≠ k) : alookup k' (apop k l) = alookup k' l := by
  have hk : ¬ (k = k') := fun hh => h hh.symm
  induction l with
  | nil => simp only [apop]
  | cons e t ih =>
    obtain ⟨ek, ev⟩ := e
    by_cases he : ek = k
    · simp [apop, if_pos he, alookup, he, if_neg hk]
    · simp only [apop, if_neg he, alookup]
      by_cases he' : ek = k'
      · simp only [if_pos he']
      · simp only [if_neg he']
        exact ih

theorem alookup_mem {k : Int} {l : List (Int × α)} {v : α}
    (h : alookup k l = some v) : (k, v) ∈ l := by
  induction l with
  | nil => simp [alookup] at h
  | cons e t ih =>
    obtain ⟨ek, ev⟩ := e
    by_cases he : ek = k
    · simp only [alookup, if_pos he] at h
      cases h
      simp [he]
    · simp only [alookup, if_neg he] at h
      exact List.mem_cons_of_mem _ (ih h)

/- ──────────────────── facts about decimal rendering ───────────────────── -/

theorem digitChar_isDigit {d : Nat} (h : d < 10) :
    (Nat.digitChar d).isDigit = true := by
  interval_cases d <;> decide

theorem digitChar_toNat {d : Nat} (h : d < 10) :
    (Nat.digitChar d).toNat - 48 = d := by
  interval_cases d <;> decide

theorem charsVal_append_one (a : List Char) (c : Char) :
    charsVal (a ++ [c]) = 10 * charsVal a + (c.toNat - 48) := by
  simp [charsVal, List.foldl_append]

theorem val_decReprAux : ∀ f n, n < f → charsVal (decReprAux f n) = n := by
  intro f
  induction f with
  | zero => intro n h; omega
  | succ f ih =>
    intro n h
    by_cases h10 : n < 10
    · simp [decReprAux, if_pos h10, charsVal, digitChar_toNat h10]
    · have hd : n / 10 < f := by omega
      have hm : n % 10 < 10 := by omega
      simp only [decReprAux, if_neg h10, charsVal_append_one, ih _ hd,
        digitChar_toNat hm]
      omega

theorem all_isDigit_decReprAux :
    ∀ f n, n < f → (decReprAux f n).all Char.isDigit = true := by
  intro f
  induction f with
  | zero => intro n h; omega
  | succ f ih =>
    intro n h
    by_cases h10 : n < 10
    · simp [decReprAux, if_pos h10, digitChar_isDigit h10]
    · have hd : n / 10 < f := by omega
      have hm : n % 10 < 10 := by omega
      simp [decReprAux, if_neg h10, List.all_append, ih _ hd,
        digitChar_isDigit hm]

theorem decReprAux_small {f n : Nat} (hn : n < 10) (hf : 0 < f) :
    decReprAux f n = [Nat.digitChar n] := by
  match f, hf with
  | f + 1, _ => simp [decReprAux, if_pos hn]

theorem decReprAux_med {f n : Nat} (h1 : 10 ≤ n) (h2 : n < 100) (hf : 1 < f) :
    decReprAux f n = [Nat.digitChar (n / 10), Nat.digitChar (n % 10)] := by
  match f, hf with
  | f + 1, hf =>
    have hlt : ¬ n < 10 := by omega
    have hq : n / 10 < 10 := by omega
    rw [decReprAux, if_neg hlt, decReprAux_small hq (by omega)]
    rfl

theorem decReprAux_big {f n : Nat} (h1 : 100 ≤ n) (h2 : n < 1000) (hf : 2 < f) :
    decReprAux f n =
      [Nat.digitChar (n / 100), Nat.digitChar (n / 10 % 10),
        Nat.digitChar (n % 10)] := by
  match f, hf with
  | f + 1, hf =>
    have hlt : ¬ n < 10 := by omega
    have hq1 : 10 ≤ n / 10 := by omega
    have hq2 : n / 10 < 100 := by omega
    rw [decReprAux, if_neg hlt, decReprAux_med hq1 hq2 (by omega)]
    have : n / 10 / 10 = n / 100 := by omega
    rw [this]
    rfl

theorem charsVal_replicate_zero (k : Nat) (s : List Char) :
    charsVal (List.replicate k '0' ++ s) = charsVal s := by
  induction k with
  | zero => simp
  | succ k ih =>
    simpa [List.replicate_succ, charsVal] using ih

theorem decRepr_length_le {n : Nat} (h : n < 1000) :
    (decRepr n).length ≤ 3 := by
  unfold decRepr
  by_cases h10 : n < 10
  · rw [decReprAux_small h10 (by omega)]; simp
  · by_cases h100 : n < 100
    · rw [decReprAux_med (by omega) h100 (by omega)]; simp
    · rw [decReprAux_big (by omega) h (by omega)]; simp

theorem format3_length {n : Nat} (h : n < 1000) : (format3 n).length = 3 := by
  have hle := decRepr_length_le h
  simp only [format3, String.length, String.mk]
  simp only [List.length_append, List.length_replicate]
  omega

theorem format3_all_digits (n : Nat) :
    (format3 n).data.all Char.isDigit = true := by
  have hd : (decRepr n).all Char.isDigit = true :=
    all_isDigit_decReprAux _ _ (Nat.lt_succ_self n)
  simp only [format3, String.mk, List.all_append]
  rw [Bool.and_eq_true]
  refine ⟨?_, hd⟩
  rw [List.all_eq_true]
  intro c hc
  rw [List.eq_of_mem_replicate hc]
  decide

theorem format3_val (n : Nat) : charsVal (format3 n).data = n := by
  simp only [format3, String.mk, charsVal_replicate_zero]
  exact val_decReprAux _ _ (Nat.lt_succ_self n)

/-- A three-digit lottery code: exactly three characters, all decimal
digits, whose value lies in `[0, 999]`. -/
def isCode3 (s : String) : Prop :=
  s.length = 3 ∧ s.data.all Char.isDigit = true ∧ charsVal s.data ≤ 999

theorem format3_isCode3 {n : Nat} (h : n ≤ 999) : isCode3 (format3 n) := by
  refine ⟨format3_length (by omega), format3_all_digits n, ?_⟩
  rw [format3_val]
  exact h

/- ───────────────────────── party registry model ───────────────────────── -/

/-- One entry of a party's `members` list (a Python dict with keys `id`,
`name`, `cls` and optionally `is_main`). -/
structure Member where
  id : Int
  name : String
  cls : Option String
  is_main : Option Bool
  deriving Repr, DecidableEq

/-- A party record as stored in `PARTY_STATE[room_id][owner_id]`. -/
structure Party where
  party_id : Nat
  title : String
  max_members : Nat
  members : List Member
  owner_id : Int
  owner_name : String
  is_raid : Bool
  deriving Repr, DecidableEq

/-- `PARTY_STATE[room_id]`: insertion-ordered dict from owner id to party. -/
abbrev RoomParties := List (Int × Party)

/-- `PARTY_STATE`: insertion-ordered dict from room id to its parties. -/
abbrev PState := List (Int × RoomParties)

/-- Abstract replies sent by the party command handlers. -/
inductive PReply where
  | duplicateParty (p : Party)
  | createdParty (p : Party)
  | noPartyToDelete
  | notOwnerDelete
  | deletedOwn
  | needPartyFirst
  | usageAddMember
  | partyFull (maxMembers : Nat)
  | addedMember (name : String) (p : Party)
  | partyNowFull
  | kickNoParty
  | usageKick
  | cannotKickOwner
  | kickNoSuchIndex (i : Nat)
  | kicked
  | noParties
  | noSuchPartyId
  | multiPartiesPickById
  | partyListShown
  | partyGone
  | editedInfo
  | joined (p : Party)
  | leaveNone
  | leaveSummary
  deriving Repr, DecidableEq

/-- `_parse_main_flag`: classify a token as main (`본`/`본캐`/`m`/`main`),
sub (`부`/`부캐`/`s`/`sub`/`alt`) or neither. -/
def parse_main_flag (token : String) : Option Bool :=
  if token = "" then none
  else
    let t := pyLower (pyStrip token)
    if t ∈ (["본", "본캐", "m", "main"] : List String) then some true
    else if t ∈ (["부", "부캐", "s", "sub", "alt"] : List String) then
      some false
    else none

/-- `_extract_cls_and_main`: the first non-flag token is the class, the last
flag token sets the main flag. -/
def extract_cls_and_main (tokens : List String) :
    Option String × Option Bool :=
  tokens.foldl
    (fun acc t =>
      match parse_main_flag t with
      | some f => (acc.1, some f)
      | none => (if acc.1.isNone then some t else acc.1, acc.2))
    (none, none)

/-- `_parse_party_create_args`: strip trailing main/sub flag tokens; with at
least two remaining tokens the last is the class and the rest form the
title, with one token that token is the title. -/
def parse_party_create_args (param : String) : String × Option String :=
  let param := pyStrip param
  if param = "" then ("파티", none)
  else
    let tokens := splitWs param
    if tokens = [] then ("파티", none)
    else
      let tokens :=
        (tokens.reverse.dropWhile (fun t => (parse_main_flag t).isSome)).reverse
      match tokens.reverse with
      | [] => ("파티", none)
      | [t] => (t, none)
      | last :: restRev =>
        (joinSpace restRev.reverse, some last)

/-- Fuelled search for the lowest free party id starting at `pid`
(the `while pid in used_ids` loop of `_next_party_id`). -/
def nextPartyIdFrom (used : List Nat) : Nat → Nat → Nat
  | 0, pid => pid
  | f + 1, pid => if pid ∈ used then nextPartyIdFrom used f (pid + 1) else pid

/-- `_next_party_id`: the ids used by the room's parties, then the lowest
number from 1 upwards that is not used. -/
def next_party_id (rp : RoomParties) : Nat :=
  let used := rp.map (fun e => e.2.party_id)
  nextPartyIdFrom used (used.length + 1) 1

/-- `_find_party_by_owner_name`: normalise the query, first look for an
exact lowercase match of an owner name, then for a substring match. -/
def find_party_by_owner_name (rp : RoomParties) (name : String) :
    Option Int :=
  if name = "" then none
  else
    let norm := pyLower (pyStrip (lstripAt name))
    match rp.find? (fun e => pyLower e.2.owner_name = norm) with
    | some e => some e.1
    | none =>
      (rp.find? (fun e =>
        containsSub norm.data (pyLower e.2.owner_name).data)).map (·.1)

/-- `/파티`: create a normal four-person party. -/
def create_party (room owner : Int) (ownerName param : String)
    (s : PState) : PState × List PReply :=
  let tc := parse_party_create_args param
  let rp := (alookup room s).getD []
  match alookup owner rp with
  | some p => (s, [.duplicateParty p])
  | none =>
    let pid := next_party_id rp
    let creator : Member := ⟨owner, ownerName, tc.2, some true⟩
    let p : Party := ⟨pid, tc.1, 4, [creator], owner, ownerName, false⟩
    (aset room (aset owner p rp) s, [.createdParty p])

/-- `/레이드파티`: create an eight-person raid party. -/
def create_raid_party (room owner : Int) (ownerName param : String)
    (s : PState) : PState × List PReply :=
  let tc := parse_party_create_args param
  let title := if tc.1 = "파티" then "레이드 파티" else tc.1
  let rp := (alookup room s).getD []
  match alookup owner rp with
  | some p => (s, [.duplicateParty p])
  | none =>
    let pid := next_party_id rp
    let creator : Member := ⟨owner, ownerName, tc.2, some true⟩
    let p : Party := ⟨pid, title, 8, [creator], owner, ownerName, true⟩
    (aset room (aset owner p rp) s, [.createdParty p])

/-- `/파티삭제`: delete every party in the room owned by the sender. -/
def delete_party (room user : Int) (s : PState) : PState × List PReply :=
  match alookup room s with
  | none => (s, [.noPartyToDelete])
  | some rp =>
    if rp = [] then (s, [.noPartyToDelete])
    else if rp.all (fun e => !(e.1 == user)) then (s, [.notOwnerDelete])
    else
      let rp' := rp.filter (fun e => !(e.1 == user))
      let s' := if rp' = [] then apop room s else aset room rp' s
      (s', [.deletedOwn])

/-- `/파티멤버추가` (`add_member_by_master`): the party owner appends an
arbitrary-name member with sentinel id 0, after the capacity check. -/
def add_member_by_master (room owner : Int) (param : String)
    (s : PState) : PState × List PReply :=
  let param := pyStrip param
  match alookup room s with
  | none => (s, [.needPartyFirst])
  | some rp =>
    if rp = [] then (s, [.needPartyFirst])
    else
      match alookup owner rp with
      | none => (s, [.needPartyFirst])
      | some p =>
        if param = "" then (s, [.usageAddMember])
        else
          let tokens := splitWs param
          let name := tokens.headD ""
          let cm :=
            if tokens.length ≥ 2 then extract_cls_and_main tokens.tail
            else (none, none)
          if p.members.length ≥ p.max_members then
            (s, [.partyFull p.max_members])
          else
            let nm : Member := ⟨0, name, cm.1, cm.2⟩
            let p' := { p with members := p.members ++ [nm] }
            let base : List PReply := [.addedMember name p']
            (aset room (aset owner p' rp) s,
              if p'.members.length = p'.max_members then
                base ++ [.partyNowFull]
              else base)

/-- `/파티추방` (`kick_member`): the owner removes the member at a 1-based
index; index 1 (the owner) is protected. -/
def kick_member (room owner : Int) (param : String)
    (s : PState) : PState × List PReply :=
  let param := pyStrip param
  match alookup room s with
  | none => (s, [.kickNoParty])
  | some rp =>
    if rp = [] then (s, [.kickNoParty])
    else
      match alookup owner rp with
      | none => (s, [.kickNoParty])
      | some p =>
        if !(isDigitStr param) then (s, [.usageKick])
        else
          let t := strToNat param
          if t = 1 then (s, [.cannotKickOwner])
          else if t = 0 ∨ p.members.length ≤ t - 1 then
            (s, [.kickNoSuchIndex t])
          else
            let p' := { p with members := p.members.eraseIdx (t - 1) }
            (aset room (aset owner p' rp) s, [.kicked])

/-- Result of the party-finding phase of `join_party` (source lines
541–595): either a target owner id together with the parsed class and
main/sub flag, or one of the early-reply outcomes. -/
inductive JoinTarget where
  | found (ownerId : Int) (cls : Option String) (is_main : Option Bool)
  | errNoSuchId
  | errNamePick
  | errList
  deriving Repr, DecidableEq

/-- The party-finding phase of `join_party`: by numeric party id, by the
single party of the room, or by owner name. -/
def joinFindTarget (rp : RoomParties) (tokens : List String) : JoinTarget :=
  match tokens with
  | [] =>
    match rp with
    | [e] => .found e.1 none none
    | _ => .errList
  | t0 :: rest =>
    if isDigitStr t0 then
      let tpid := strToNat t0
      match rp.find? (fun e => e.2.party_id == tpid) with
      | some e =>
        let cm := extract_cls_and_main rest
        .found e.1 cm.1 cm.2
      | none => .errNoSuchId
    else
      match rp with
      | [e] =>
        let cm := extract_cls_and_main tokens
        .found e.1 cm.1 cm.2
      | _ =>
        match find_party_by_owner_name rp t0 with
        | some oid =>
          let cm := extract_cls_and_main rest
          .found oid cm.1 cm.2
        | none => .errNamePick

/-- Replace (in place) the first member with the given id. -/
def updateFirstMember (uid : Int) (f : Member → Member) :
    List Member → List Member
  | [] => []
  | m :: t =>
    if m.id = uid then f m :: t else m :: updateFirstMember uid f t

/-- `/참여` (`join_party`): find the target party, then either edit the
caller's existing entry, reject when full, or append the caller. -/
def join_party (room user : Int) (userName param : String)
    (s : PState) : PState × List PReply :=
  let tokens := splitWs (pyStrip param)
  match alookup room s with
  | none => (s, [.noParties])
  | some rp =>
    if rp = [] then (s, [.noParties])
    else
      match joinFindTarget rp tokens with
      | .errNoSuchId => (s, [.noSuchPartyId])
      | .errNamePick => (s, [.multiPartiesPickById])
      | .errList => (s, [.partyListShown])
      | .found oid cls im =>
        match alookup oid rp with
        | none => (s, [.partyGone])
        | some p =>
          if p.members.any (fun m => m.id == user) then
            let p' :=
              { p with
                members :=
                  updateFirstMember user
                    (fun m =>
                      { m with
                        cls := if optStrTruthy cls then cls else m.cls,
                        is_main :=
                          match im with
                          | some b => some b
                          | none => m.is_main })
                    p.members }
            (aset room (aset oid p' rp) s, [.editedInfo])
          else if p.members.length ≥ p.max_members then
            (s, [.partyFull p.max_members])
          else
            let nm : Member := ⟨user, userName, cls, some (im.getD true)⟩
            let p' := { p with members := p.members ++ [nm] }
            let base : List PReply := [.joined p']
            (aset room (aset oid p' rp) s,
              if p'.members.length = p'.max_members then
                base ++ [.partyNowFull]
              else base)

/-- `/파티취소` (`leave_party`): leave every party of the room the user
belongs to; parties the user owns, and parties left empty, are removed. -/
def leave_party (room user : Int) (s : PState) : PState × List PReply :=
  match alookup room s with
  | none => (s, [.noParties])
  | some rp =>
    if rp = [] then (s, [.noParties])
    else if rp.all (fun e => !(e.2.members.any (fun m => m.id == user))) then
      (s, [.leaveNone])
    else
      let rp' := rp.filterMap (fun e =>
        if e.2.members.any (fun m => m.id == user) then
          if e.2.owner_id == user then none
          else
            let ms := e.2.members.filter (fun m => !(m.id == user))
            if ms = [] then none else some (e.1, { e.2 with members := ms })
        else some e)
      let s' := if rp' = [] then apop room s else aset room rp' s
      (s', [.leaveSummary])

/-- `_ensure_today_state`: when the remembered date differs from today, the
whole registry is cleared.  The first component is `_PARTY_STATE_DATE`
(dates abstracted as naturals). -/
def ensure_today_state (today : Nat) (st : Option Nat × PState) :
    Option Nat × PState :=
  match st.1 with
  | none => (some today, st.2)
  | some d => if d ≠ today then (some today, []) else (st.1, st.2)

/-- One command invocation against the party registry (the mutating part of
`handle_party_command`), plus the midnight rollover of
`_ensure_today_state`. -/
inductive PEvent where
  | create (room owner : Int) (ownerName param : String)
  | createRaid (room owner : Int) (ownerName param : String)
  | join (room user : Int) (userName param : String)
  | addMember (room owner : Int) (param : String)
  | kick (room owner : Int) (param : String)
  | leave (room user : Int)
  | delete (room user : Int)
  | showStatus (room : Int)
  | promote (room user : Int)
  | reset
  deriving Repr, DecidableEq

/-- State transition of the party registry for one event.  `show_party_status`
and `promote_party` only read the registry; `reset` is the state wipe
performed by `_ensure_today_state` on a date change. -/
def applyEvent : PEvent → PState → PState
  | .create room owner ownerName param, s =>
    (create_party room owner ownerName param s).1
  | .createRaid room owner ownerName param, s =>
    (create_raid_party room owner ownerName param s).1
  | .join room user userName param, s =>
    (join_party room user userName param s).1
  | .addMember room owner param, s => (add_member_by_master room owner param s).1
  | .kick room owner param, s => (kick_member room owner param s).1
  | .leave room user, s => (leave_party room user s).1
  | .delete room user, s => (delete_party room user s).1
  | .showStatus _, s => s
  | .promote _ _, s => s
  | .reset, _ => []

/-- Registry states reachable from the initial empty registry. -/
inductive Reachable : PState → Prop where
  | init : Reachable []
  | step (e : PEvent) (s : PState) : Reachable s → Reachable (applyEvent e s)

/-- Whether room `room` currently holds a party owned by `owner`. -/
def partyPresent (room owner : Int) (s : PState) : Bool :=
  ((alookup room s).bind (alookup owner)).isSome

/- ─────────────────── registry invariants (C1 / C8) ────────────────────── -/

/-- Per-party invariant: the member list never exceeds the capacity, the
capacity is 8 for raid parties and 4 otherwise, and every nonzero member id
occurs at most once. -/
def PInv (p : Party) : Prop :=
  p.members.length ≤ p.max_members ∧
  p.max_members = (if p.is_raid then 8 else 4) ∧
  ∀ i : Int, i ≠ 0 → (p.members.filter (fun m => m.id == i)).length ≤ 1

/-- Room-level invariant. -/
def RInv (rp : RoomParties) : Prop := ∀ pe ∈ rp, PInv pe.2

/-- Registry-level invariant. -/
def StateInv (s : PState) : Prop := ∀ re ∈ s, RInv re.2

theorem RInv_of_state {s : PState} {room : Int} {rp : RoomParties}
    (hs : StateInv s) (h : alookup room s = some rp) : RInv rp :=
  hs (room, rp) (alookup_mem h)

theorem PInv_of_room {rp : RoomParties} {oid : Int} {p : Party}
    (hr : RInv rp) (h : alookup oid rp = some p) : PInv p :=
  hr (oid, p) (alookup_mem h)

theorem stateInv_aset {s : PState} {room : Int} {rp' : RoomParties}
    (hs : StateInv s) (hr : RInv rp') : StateInv (aset room rp' s) := by
  intro re hre
  rcases mem_aset hre with h | h
  · cases h; exact hr
  · exact hs re h

theorem stateInv_apop {s : PState} {room : Int}
    (hs : StateInv s) : StateInv (apop room s) :=
  fun re hre => hs re (mem_apop hre)

theorem rInv_aset {rp : RoomParties} {oid : Int} {p' : Party}
    (hr : RInv rp) (hp : PInv p') : RInv (aset oid p' rp) := by
  intro pe hpe
  rcases mem_aset hpe with h | h
  · cases h; exact hp
  · exact hr pe h

theorem pInv_single {pid : Nat} {title : String} {creator : Member}
    {oid : Int} {oname : String} {raid : Bool} :
    PInv ⟨pid, title, if raid then 8 else 4, [creator], oid, oname, raid⟩ := by
  refine ⟨?_, rfl, ?_⟩
  · cases raid <;> simp
  · intro i _
    simp only [List.filter]
    split <;> simp

/-- Appending a member below capacity preserves the party invariant, as
long as the new id is 0 or absent from the current list. -/
theorem pInv_append {p : Party} {nm : Member}
    (hp : PInv p) (hlen : p.members.length < p.max_members)
    (hid : nm.id = 0 ∨ ∀ m ∈ p.members, m.id ≠ nm.id) :
    PInv { p with members := p.members ++ [nm] } := by
  obtain ⟨h1, h2, h3⟩ := hp
  refine ⟨by simpa using hlen, h2, ?_⟩
  intro i hi
  rw [List.filter_append]
  by_cases hni : (nm.id == i) = true
  · have hids : nm.id = i := by simpa using hni
    rcases hid with h0 | hnone
    · exact absurd (h0 ▸ hids).symm hi
    · have hempty : p.members.filter (fun m => m.id == i) = [] := by
        rw [List.filter_eq_nil_iff]
        intro m hm
        simp only [beq_iff_eq]
        rw [← hids]
        exact fun hc => hnone m hm hc
      rw [hempty, List.nil_append]
      exact le_trans (List.length_filter_le _ _) (by simp)
  · have : List.filter (fun m => m.id == i) [nm] = [] := by
      simp [List.filter, hni]
    rw [this, List.append_nil]
    exact h3 i hi

/-- Any party whose member list shrinks to a sublist keeps the invariant. -/
theorem pInv_sublist {p : Party} {ms : List Member}
    (hp : PInv p) (hsub : List.Sublist ms p.members) :
    PInv { p with members := ms } := by
  obtain ⟨h1, h2, h3⟩ := hp
  refine ⟨le_trans hsub.length_le h1, h2, ?_⟩
  intro i hi
  exact le_trans ((hsub.filter _).length_le) (h3 i hi)

theorem updateFirstMember_length (uid : Int) (f : Member → Member) :
    ∀ ms : List Member, (updateFirstMember uid f ms).length = ms.length := by
  intro ms
  induction ms with
  | nil => rfl
  | cons m t ih =>
    by_cases hm : m.id = uid
    · simp [updateFirstMember, if_pos hm]
    · simp [updateFirstMember, if_neg hm, ih]

theorem updateFirstMember_filter_length {uid : Int} {f : Member → Member}
    (hf : ∀ m, (f m).id = m.id) (i : Int) :
    ∀ ms : List Member,
      ((updateFirstMember uid f ms).filter (fun m => m.id == i)).length =
        (ms.filter (fun m => m.id == i)).length := by
  intro ms
  induction ms with
  | nil => rfl
  | cons m t ih =>
    by_cases hm : m.id = uid
    · simp only [updateFirstMember, if_pos hm, List.filter]
      rw [hf m]
      split <;> simp
    · simp only [updateFirstMember, if_neg hm, List.filter]
      split <;> simp [ih]

/-- The member edited by the join command keeps its id. -/
theorem pInv_updateFirst {p : Party} {uid : Int} {f : Member → Member}
    (hp : PInv p) (hf : ∀ m, (f m).id = m.id) :
    PInv { p with members := updateFirstMember uid f p.members } := by
  obtain ⟨h1, h2, h3⟩ := hp
  refine ⟨?_, h2, ?_⟩
  · rw [updateFirstMember_length]; exact h1
  · intro i hi
    rw [updateFirstMember_filter_length hf]
    exact h3 i hi

theorem rInv_nil : RInv [] := by
  intro pe hpe
  simp at hpe

theorem rInv_getD {s : PState} {room : Int} (hs : StateInv s) :
    RInv ((alookup room s).getD []) := by
  cases h : alookup room s with
  | none => simpa using rInv_nil
  | some rp => simpa using RInv_of_state hs h

theorem pInv_new4 (pid : Nat) (title : String) (creator : Member)
    (oid : Int) (oname : String) :
    PInv ⟨pid, title, 4, [creator], oid, oname, false⟩ := by
  refine ⟨by simp, by simp, ?_⟩
  intro i _
  simp only [List.filter]
  split <;> simp

theorem pInv_new8 (pid : Nat) (title : String) (creator : Member)
    (oid : Int) (oname : String) :
    PInv ⟨pid, title, 8, [creator], oid, oname, true⟩ := by
  refine ⟨by simp, by simp, ?_⟩
  intro i _
  simp only [List.filter]
  split <;> simp

theorem stateInv_create {s : PState} (room owner : Int)
    (ownerName param : String) (hs : StateInv s) :
    StateInv (create_party room owner ownerName param s).1 := by
  simp only [create_party]
  split
  · exact hs
  · exact stateInv_aset hs (rInv_aset (rInv_getD hs) (pInv_new4 _ _ _ _ _))

theorem stateInv_createRaid {s : PState} (room owner : Int)
    (ownerName param : String) (hs : StateInv s) :
    StateInv (create_raid_party room owner ownerName param s).1 := by
  simp only [create_raid_party]
  split
  · exact hs
  · exact stateInv_aset hs (rInv_aset (rInv_getD hs) (pInv_new8 _ _ _ _ _))

theorem stateInv_delete {s : PState} (room user : Int) (hs : StateInv s) :
    StateInv (delete_party room user s).1 := by
  simp only [delete_party]
  split
  · exact hs
  · rename_i rp hrp
    split
    · exact hs
    · split
      · exact hs
      · simp only
        split
        · exact stateInv_apop hs
        · refine stateInv_aset hs ?_
          intro pe hpe
          exact RInv_of_state hs hrp pe (List.mem_of_mem_filter hpe)

theorem stateInv_addMember {s : PState} (room owner : Int) (param : String)
    (hs : StateInv s) :
    StateInv (add_member_by_master room owner param s).1 := by
  simp only [add_member_by_master]
  split
  · exact hs
  · rename_i rp hrp
    split
    · exact hs
    · split
      · exact hs
      · rename_i p hp
        split
        · exact hs
        · split
          · exact hs
          · rename_i hfull
            have hpi : PInv p := PInv_of_room (RInv_of_state hs hrp) hp
            have hlen : p.members.length < p.max_members := by omega
            split <;>
              exact stateInv_aset hs (rInv_aset (RInv_of_state hs hrp)
                (pInv_append hpi hlen (Or.inl rfl)))

theorem stateInv_kick {s : PState} (room owner : Int) (param : String)
    (hs : StateInv s) :
    StateInv (kick_member room owner param s).1 := by
  simp only [kick_member]
  split
  · exact hs
  · rename_i rp hrp
    split
    · exact hs
    · split
      · exact hs
      · rename_i p hp
        split
        · exact hs
        · split
          · exact hs
          · split
            · exact hs
            · have hpi : PInv p := PInv_of_room (RInv_of_state hs hrp) hp
              exact stateInv_aset hs (rInv_aset (RInv_of_state hs hrp)
                (pInv_sublist hpi (List.eraseIdx_sublist p.members _)))

theorem stateInv_join {s : PState} (room user : Int)
    (userName param : String) (hs : StateInv s) :
    StateInv (join_party room user userName param s).1 := by
  simp only [join_party]
  split
  · exact hs
  · rename_i rp hrp
    split
    · exact hs
    · split
      · exact hs
      · exact hs
      · exact hs
      · rename_i oid cls im hfind
        split
        · exact hs
        · rename_i p hp
          have hpi : PInv p := PInv_of_room (RInv_of_state hs hrp) hp
          split
          · refine stateInv_aset hs (rInv_aset (RInv_of_state hs hrp) ?_)
            exact pInv_updateFirst hpi (fun m => rfl)
          · split
            · exact hs
            · rename_i hany hfull
              have hlen : p.members.length < p.max_members := by omega
              have hnot : ∀ m ∈ p.members, m.id ≠ user := by
                intro m hm hc
                exact hany (List.any_eq_true.mpr ⟨m, hm, by simp [hc]⟩)
              split <;>
                exact stateInv_aset hs (rInv_aset (RInv_of_state hs hrp)
                  (pInv_append hpi hlen (Or.inr (fun m hm => hnot m hm))))

theorem stateInv_leave {s : PState} (room user : Int) (hs : StateInv s) :
    StateInv (leave_party room user s).1 := by
  simp only [leave_party]
  split
  · exact hs
  · rename_i rp hrp
    split
    · exact hs
    · split
      · exact hs
      · simp only
        split
        · exact stateInv_apop hs
        · refine stateInv_aset hs ?_
          intro pe hpe
          rcases List.mem_filterMap.mp hpe with ⟨e, he, heq⟩
          have hpi : PInv e.2 := RInv_of_state hs hrp e he
          by_cases h1 : e.2.members.any (fun m => m.id == user) = true
          · rw [if_pos h1] at heq
            by_cases h2 : (e.2.owner_id == user) = true
            · rw [if_pos h2] at heq
              exact absurd heq (by simp)
            · rw [if_neg h2] at heq
              split at heq
              · exact absurd heq (by simp)
              · cases heq
                exact pInv_sublist hpi (List.filter_sublist _)
          · rw [if_neg h1] at heq
            cases heq
            exact hpi

/-- Every reachable registry state satisfies the party invariant. -/
theorem reachable_stateInv {s : PState} (h : Reachable s) : StateInv s := by
  induction h with
  | init => intro re hre; simp at hre
  | step e s hr ih =>
    cases e with
    | create room owner ownerName param => exact stateInv_create _ _ _ _ ih
    | createRaid room owner ownerName param =>
      exact stateInv_createRaid _ _ _ _ ih
    | join room user userName param => exact stateInv_join _ _ _ _ ih
    | addMember room owner param => exact stateInv_addMember _ _ _ ih
    | kick room owner param => exact stateInv_kick _ _ _ ih
    | leave room user => exact stateInv_leave _ _ ih
    | delete room user => exact stateInv_delete _ _ ih
    | showStatus room => exact ih
    | promote room user => exact ih
    | reset => intro re hre; simp [applyEvent] at hre

/- ─────────────── which events can remove a party (C6) ─────────────────── -/

theorem alookup_isSome_aset {k o : Int} {v : α} {l : List (Int × α)}
    (h : (alookup o l).isSome = true) :
    (alookup o (aset k v l)).isSome = true := by
  by_cases ho : o = k
  · subst ho
    rw [alookup_aset_self]
    rfl
  · rw [alookup_aset_ne ho]
    exact h

theorem partyPresent_aset_room {room r o : Int} {rp' : RoomParties}
    {s : PState}
    (hkeep : ∀ o', (alookup o' ((alookup room s).getD [])).isSome = true →
      (alookup o' rp').isSome = true)
    (h : partyPresent r o s = true) :
    partyPresent r o (aset room rp' s) = true := by
  unfold partyPresent at h ⊢
  by_cases hr : r = room
  · subst hr
    rw [alookup_aset_self]
    cases hs : alookup r s with
    | none => rw [hs] at h; simp at h
    | some rpr =>
      rw [hs] at h
      simp only [Option.some_bind] at h ⊢
      apply hkeep
      rw [hs]
      simpa using h
  · rw [alookup_aset_ne hr]
    exact h

theorem present_create {room owner r o : Int} {ownerName param : String}
    {s : PState} (h : partyPresent r o s = true) :
    partyPresent r o (create_party room owner ownerName param s).1 = true := by
  simp only [create_party]
  split
  · exact h
  · exact partyPresent_aset_room (fun o' h' => alookup_isSome_aset h') h

theorem present_createRaid {room owner r o : Int} {ownerName param : String}
    {s : PState} (h : partyPresent r o s = true) :
    partyPresent r o (create_raid_party room owner ownerName param s).1 =
      true := by
  simp only [create_raid_party]
  split
  · exact h
  · exact partyPresent_aset_room (fun o' h' => alookup_isSome_aset h') h

theorem present_join {room user r o : Int} {userName param : String}
    {s : PState} (h : partyPresent r o s = true) :
    partyPresent r o (join_party room user userName param s).1 = true := by
  simp only [join_party]
  split
  · exact h
  · rename_i rp hrp
    split
    · exact h
    · split
      · exact h
      · exact h
      · exact h
      · split
        · exact h
        · split
          · refine partyPresent_aset_room (fun o' h' => ?_) h
            rw [hrp] at h'
            exact alookup_isSome_aset (by simpa using h')
          · split
            · exact h
            · split <;>
                · refine partyPresent_aset_room (fun o' h' => ?_) h
                  rw [hrp] at h'
                  exact alookup_isSome_aset (by simpa using h')

theorem present_addMember {room owner r o : Int} {param : String}
    {s : PState} (h : partyPresent r o s = true) :
    partyPresent r o (add_member_by_master room owner param s).1 = true := by
  simp only [add_member_by_master]
  split
  · exact h
  · rename_i rp hrp
    split
    · exact h
    · split
      · exact h
      · split
        · exact h
        · split
          · exact h
          · split <;>
              · refine partyPresent_aset_room (fun o' h' => ?_) h
                rw [hrp] at h'
                exact alookup_isSome_aset (by simpa using h')

theorem present_kick {room owner r o : Int} {param : String}
    {s : PState} (h : partyPresent r o s = true) :
    partyPresent r o (kick_member room owner param s).1 = true := by
  simp only [kick_member]
  split
  · exact h
  · rename_i rp hrp
    split
    · exact h
    · split
      · exact h
      · split
        · exact h
        · split
          · exact h
          · split
            · exact h
            · refine partyPresent_aset_room (fun o' h' => ?_) h
              rw [hrp] at h'
              exact alookup_isSome_aset (by simpa using h')

theorem alookup_filter_other {u o : Int} (h : o ≠ u) :
    ∀ l : List (Int × α),
      alookup o (l.filter (fun e => !(e.1 == u))) = alookup o l := by
  intro l
  induction l with
  | nil => rfl
  | cons e t ih =>
    obtain ⟨ek, ev⟩ := e
    by_cases hek : ek = u
    · subst hek
      have hne : ¬ (ek = o) := fun hh => h (hh.symm)
      have hc : (!((ek, ev).1 == ek)) = false := by simp
      rw [List.filter_cons, hc, if_neg (show ¬ (false = true) by decide)]
      simp only [alookup, if_neg hne]
      exact ih
    · simp only [List.filter_cons]
      rw [if_pos (by simpa using hek)]
      simp only [alookup]
      by_cases heo : ek = o
      · rw [if_pos heo, if_pos heo]
      · rw [if_neg heo, if_neg heo]
        exact ih

theorem delete_removes_only_own {room user r o : Int} {s : PState}
    (hpre : partyPresent r o s = true)
    (hpost : partyPresent r o (delete_party room user s).1 = false) :
    r = room ∧ o = user := by
  simp only [delete_party] at hpost
  split at hpost
  · simp [hpre] at hpost
  · rename_i rp hrp
    split at hpost
    · simp [hpre] at hpost
    · split at hpost
      · simp [hpre] at hpost
      · simp only at hpost
        have hr : r = room := by
          by_contra hne
          rw [show partyPresent r o
                (if rp.filter (fun e => !(e.1 == user)) = []
                  then apop room s
                  else aset room (rp.filter (fun e => !(e.1 == user))) s) =
              partyPresent r o s from ?_, hpre] at hpost
          · simp at hpost
          · unfold partyPresent
            split
            · rw [alookup_apop_ne hne]
            · rw [alookup_aset_ne hne]
        subst hr
        refine ⟨rfl, ?_⟩
        by_contra hneo
        unfold partyPresent at hpre
        rw [hrp] at hpre
        simp only [Option.some_bind] at hpre
        obtain ⟨p, hp⟩ := Option.isSome_iff_exists.mp hpre
        have hfilter : alookup o (rp.filter (fun e => !(e.1 == user))) =
            some p := by
          rw [alookup_filter_other hneo]
          exact hp
        split at hpost
        · rename_i hnil
          rw [hnil] at hfilter
          simp [alookup] at hfilter
        · unfold partyPresent at hpost
          rw [alookup_aset_self] at hpost
          simp only [Option.some_bind] at hpost
          rw [hfilter] at hpost
          simp at hpost

theorem leave_removes_only_room {room user r o : Int} {s : PState}
    (hpre : partyPresent r o s = true)
    (hpost : partyPresent r o (leave_party room user s).1 = false) :
    r = room := by
  simp only [leave_party] at hpost
  split at hpost
  · simp [hpre] at hpost
  · rename_i rp hrp
    split at hpost
    · simp [hpre] at hpost
    · split at hpost
      · simp [hpre] at hpost
      · simp only at hpost
        by_contra hne
        rw [show partyPresent r o
              (if (rp.filterMap fun e =>
                    if e.2.members.any (fun m => m.id == user) = true then
                      if (e.2.owner_id == user) = true then none
                      else
                        if e.2.members.filter (fun m => !(m.id == user)) = []
                          then none
                          else some (e.1,
                            { e.2 with
                              members :=
                                e.2.members.filter (fun m => !(m.id == user)) })
                    else some e) = []
                then apop room s
                else aset room (rp.filterMap fun e =>
                    if e.2.members.any (fun m => m.id == user) = true then
                      if (e.2.owner_id == user) = true then none
                      else
                        if e.2.members.filter (fun m => !(m.id == user)) = []
                          then none
                          else some (e.1,
                            { e.2 with
                              members :=
                                e.2.members.filter (fun m => !(m.id == user)) })
                    else some e) s) =
            partyPresent r o s from ?_, hpre] at hpost
        · simp at hpost
        · unfold partyPresent
          split
          · rw [alookup_apop_ne hne]
          · rw [alookup_aset_ne hne]

/- ───────────────── lowest-free-id computation (C9) ────────────────────── -/

theorem filter_ge_succ_lt {l : List Nat} {pid : Nat} (h : pid ∈ l) :
    (l.filter (fun x => pid + 1 ≤ x)).length <
      (l.filter (fun x => pid ≤ x)).length := by
  induction l with
  | nil => simp at h
  | cons a t ih =>
    have hmono : (t.filter (fun x => pid + 1 ≤ x)).length ≤
        (t.filter (fun x => pid ≤ x)).length :=
      (List.monotone_filter_right t
        (fun x hx => by simp at hx ⊢; omega)).length_le
    by_cases ha : a = pid
    · subst ha
      rw [List.filter_cons, List.filter_cons,
        if_neg (by simp), if_pos (by simp)]
      simp only [List.length_cons]
      omega
    · have hmem : pid ∈ t := by
        rcases List.mem_cons.mp h with h' | h'
        · exact absurd h'.symm ha
        · exact h'
      have hih := ih hmem
      rw [List.filter_cons, List.filter_cons]
      by_cases h1 : pid + 1 ≤ a
      · rw [if_pos (by simpa using h1), if_pos (by simp; omega)]
        simp only [List.length_cons]
        omega
      · have h2 : ¬ pid ≤ a := by omega
        rw [if_neg (by simpa using h1), if_neg (by simpa using h2)]
        exact hih

theorem nextPartyIdFrom_spec (used : List Nat) :
    ∀ fuel pid, (used.filter (fun x => pid ≤ x)).length < fuel →
      nextPartyIdFrom used fuel pid ∉ used ∧
      pid ≤ nextPartyIdFrom used fuel pid ∧
      ∀ k, pid ≤ k → k < nextPartyIdFrom used fuel pid → k ∈ used := by
  intro fuel
  induction fuel with
  | zero => intro pid h; omega
  | succ fuel ih =>
    intro pid h
    by_cases hmem : pid ∈ used
    · have hlt := filter_ge_succ_lt hmem
      have hih := ih (pid + 1) (by omega)
      rw [nextPartyIdFrom, if_pos hmem]
      refine ⟨hih.1, by omega, ?_⟩
      intro k hk1 hk2
      by_cases hk : k = pid
      · exact hk ▸ hmem
      · exact hih.2.2 k (by omega) hk2
    · rw [nextPartyIdFrom, if_neg hmem]
      exact ⟨hmem, le_refl _, fun k h1 h2 => by omega⟩

theorem next_party_id_spec (rp : RoomParties) :
    next_party_id rp ∉ rp.map (fun e => e.2.party_id) ∧
    1 ≤ next_party_id rp ∧
    ∀ k, 1 ≤ k → k < next_party_id rp →
      k ∈ rp.map (fun e => e.2.party_id) := by
  have hfuel : ((rp.map (fun e => e.2.party_id)).filter
      (fun x => 1 ≤ x)).length <
      (rp.map (fun e => e.2.party_id)).length + 1 := by
    have := List.length_filter_le (fun x => 1 ≤ x)
      (rp.map (fun e => e.2.party_id))
    omega
  exact nextPartyIdFrom_spec _ _ _ hfuel

/- ─────────────── user / points / shop / lottery model ─────────────────── -/

/-- A row of the `users` table (fields relevant to the claims). -/
structure UserRow where
  user_id : Int
  name : String
  points : Int
  spent_points : Int
  total_checkin : Nat
  consecutive_checkin : Nat
  last_checkin_date : Option String
  deriving Repr, DecidableEq

/-- A row of the `items` shop table. -/
structure Item where
  item_id : Nat
  item_name : String
  price : Int
  description : String
  deriving Repr, DecidableEq

/-- A row of the `inventory` table. -/
structure InvRow where
  user_id : Int
  item_id : Nat
  quantity : Int
  purchase_date : String
  deriving Repr, DecidableEq

/-- A row of the `lotto` table. -/
structure LottoRow where
  user_id : Int
  lotto_date : String
  numbers : String
  room_id : String
  is_drawn : Bool
  deriving Repr, DecidableEq

/-- The sqlite database. -/
structure DB where
  users : List UserRow
  items : List Item
  inventory : List InvRow
  lotto : List LottoRow
  deriving Repr, DecidableEq

/-- Abstract replies of the user-system command handlers. -/
inductive UReply where
  | alreadyChecked (total consec : Nat)
  | checkedIn (total consec : Nat)
  | usageBuy
  | unknownItem (name : String)
  | insufficient (cur price : Int)
  | bought (name : String) (price remaining : Int)
  | alreadyHasTicket (numbers : String)
  | issuedTicket (numbers : String)
  | dbError
  deriving Repr, DecidableEq

/-- SQL `UPDATE users SET … WHERE user_id = ?`: rewrite every matching
row (the id is a primary key, so at most one matches in practice). -/
def updateUsers (uid : Int) (f : UserRow → UserRow)
    (l : List UserRow) : List UserRow :=
  l.map (fun u => if u.user_id = uid then f u else u)

/-- `SELECT … FROM users WHERE user_id = ?` followed by `fetchone()`. -/
def userRow (uid : Int) (db : DB) : Option UserRow :=
  db.users.find? (fun u => u.user_id == uid)

/-- The `ㅊㅊ` check-in command (`handle_user_commands`, lines 353–398):
a same-day repeat only reports the stored counters, otherwise 10 points
are credited once and the counters advance. -/
def checkin_command (uid : Int) (todayStr yesterdayStr : String)
    (db : DB) : DB × UReply :=
  match userRow uid db with
  | none => (db, .dbError)
  | some user =>
    if user.last_checkin_date = some todayStr then
      (db, .alreadyChecked user.total_checkin user.consecutive_checkin)
    else
      let newConsec :=
        if user.last_checkin_date = some yesterdayStr then
          user.consecutive_checkin + 1
        else 1
      let newTotal := user.total_checkin + 1
      ({ db with
          users := updateUsers uid
            (fun u =>
              { u with
                total_checkin := newTotal,
                consecutive_checkin := newConsec,
                last_checkin_date := some todayStr,
                points := u.points + 10 })
            db.users },
        .checkedIn newTotal newConsec)

/-- Update (in place) the first inventory row of the given user and item
(the row located by `SELECT id FROM inventory WHERE …` + `fetchone`). -/
def updateFirstInv (uid : Int) (iid : Nat) (f : InvRow → InvRow) :
    List InvRow → List InvRow
  | [] => []
  | r :: t =>
    if r.user_id = uid ∧ r.item_id = iid then f r :: t
    else r :: updateFirstInv uid iid f t

/-- The `/구매` purchase command (`handle_user_commands`, lines 515–578). -/
def buy_command (uid : Int) (param nowTime : String) (db : DB) :
    DB × UReply :=
  let target := pyStrip param
  if target = "" then (db, .usageBuy)
  else
    match db.items.find? (fun i => i.item_name == target) with
    | none => (db, .unknownItem target)
    | some item =>
      match userRow uid db with
      | none => (db, .dbError)
      | some urow =>
        let currentPoints := urow.points
        if currentPoints < item.price then
          (db, .insufficient currentPoints item.price)
        else
          let users' := updateUsers uid
            (fun u =>
              { u with
                points := u.points - item.price,
                spent_points := u.spent_points + item.price })
            db.users
          match db.inventory.find?
              (fun r => r.user_id == uid && r.item_id == item.item_id) with
          | some _ =>
            ({ db with
                users := users',
                inventory := updateFirstInv uid item.item_id
                  (fun r => { r with quantity := r.quantity + 1 })
                  db.inventory },
              .bought item.item_name item.price
                (currentPoints - item.price))
          | none =>
            ({ db with
                users := users',
                inventory :=
                  db.inventory ++ [⟨uid, item.item_id, 1, nowTime⟩] },
              .bought item.item_name item.price
                (currentPoints - item.price))

/-- Quantity held of an item, as displayed (first matching inventory row,
zero when absent). -/
def invQty (uid : Int) (iid : Nat) (db : DB) : Int :=
  ((db.inventory.find?
      (fun r => r.user_id == uid && r.item_id == iid)).map
    (fun r => r.quantity)).getD 0

/-- The `/복권자동` lottery-ticket command (`handle_user_commands`,
lines 455–477); `rand` is the oracle value of `random.randint(0, 999)`. -/
def lotto_auto_command (uid : Int) (roomId todayStr : String) (rand : Nat)
    (db : DB) : DB × UReply :=
  match db.lotto.find? (fun t => t.user_id == uid && t.is_drawn == false) with
  | some t => (db, .alreadyHasTicket t.numbers)
  | none =>
    let nums := format3 rand
    ({ db with lotto := db.lotto ++ [⟨uid, todayStr, nums, roomId, false⟩] },
      .issuedTicket nums)

/-- One undrawn ticket of a room joined with the holder's name, as read by
`execute_probability_draw`. -/
structure TicketInfo where
  user_id : Int
  numbers : String
  name : String
  deriving Repr, DecidableEq

/-- The winning-number selection of `execute_probability_draw` (lines
268–282): each ticket wins outright with probability 1/100 (`hits`
oracle); otherwise up to 1000 random candidates (`cands` oracle) are
tried for a number not already taken, falling back to one last random
number. -/
def pickWinningNumber (tickets : List TicketInfo) (hits : List Bool)
    (cands : List Nat) (fallback : Nat) : String :=
  let taken := tickets.map (fun t => t.numbers)
  match (tickets.zip hits).find? (fun p => p.2) with
  | some p => p.1.numbers
  | none =>
    match (cands.take 1000).find? (fun c => !(taken.contains (format3 c))) with
    | some c => format3 c
    | none => format3 fallback

theorem userRow_updateUsers (uid : Int) (f : UserRow → UserRow)
    (hid : ∀ u, (f u).user_id = u.user_id) :
    ∀ l : List UserRow,
      (updateUsers uid f l).find? (fun u => u.user_id == uid) =
        (l.find? (fun u => u.user_id == uid)).map f := by
  intro l
  induction l with
  | nil => rfl
  | cons u t ih =>
    by_cases hu : u.user_id = uid
    · rw [updateUsers, List.map_cons, if_pos hu,
        List.find?_cons_of_pos _ (by simp [hid, hu]),
        List.find?_cons_of_pos _ (by simp [hu])]
      rfl
    · rw [updateUsers, List.map_cons, if_neg hu,
        List.find?_cons_of_neg _ (by simp [hu]),
        List.find?_cons_of_neg _ (by simp [hu])]
      exact ih

theorem find?_append_none {p : α → Bool} {l1 l2 : List α}
    (h : l1.find? p = none) : (l1 ++ l2).find? p = l2.find? p := by
  induction l1 with
  | nil => rfl
  | cons a t ih =>
    by_cases ha : p a = true
    · rw [List.find?_cons_of_pos _ ha] at h
      exact absurd h (by simp)
    · rw [List.find?_cons_of_neg _ (by simpa using ha)] at h
      rw [List.cons_append, List.find?_cons_of_neg _ (by simpa using ha)]
      exact ih h

theorem findInv_updateFirstInv (uid : Int) (iid : Nat) (f : InvRow → InvRow)
    (hid : ∀ r, (f r).user_id = r.user_id ∧ (f r).item_id = r.item_id) :
    ∀ l : List InvRow,
      (updateFirstInv uid iid f l).find?
          (fun r => r.user_id == uid && r.item_id == iid) =
        (l.find? (fun r => r.user_id == uid && r.item_id == iid)).map f := by
  intro l
  induction l with
  | nil => rfl
  | cons r t ih =>
    by_cases hr : r.user_id = uid ∧ r.item_id = iid
    · rw [updateFirstInv, if_pos hr,
        List.find?_cons_of_pos _ (by simp [(hid r).1, (hid r).2, hr.1, hr.2]),
        List.find?_cons_of_pos _ (by simp [hr.1, hr.2])]
      rfl
    · have hrb : ((fun r => r.user_id == uid && r.item_id == iid) r) = false := by
        simp only [Bool.and_eq_false_iff, beq_eq_false_iff_ne, ne_eq]
        by_cases h1 : r.user_id = uid
        · exact Or.inr (fun h2 => hr ⟨h1, h2⟩)
        · exact Or.inl h1
      rw [updateFirstInv, if_neg hr,
        List.find?_cons_of_neg _ (by simp [hrb]),
        List.find?_cons_of_neg _ (by simp [hrb])]
      exact ih

/- ───────────────────────── 369 game model ─────────────────────────────── -/

/-- Per-room 369 game state (`GAME_369_STATE[room]`; the constant
`join_rate` field is handled by the `botJoin` oracle instead). -/
structure G369State where
  active : Bool
  current : Nat
  deriving Repr, DecidableEq

/-- Abstract replies of the 369 turn handler. -/
inductive GReply where
  | praise (next : Nat)
  | bot (answer : String)
  | gameOver (expected : Nat) (answer : String)
  deriving Repr, DecidableEq

/-- `_format_answer`: the decimal string of `n` when it has no digit 3, 6
or 9, otherwise `ㅉ` repeated once per such digit. -/
def format_answer (n : Nat) : String :=
  let s := decRepr n
  let clapCnt := s.countP (fun c => c == '3' || c == '6' || c == '9')
  if clapCnt = 0 then String.mk s
  else String.mk (List.replicate clapCnt 'ㅉ')

/-- `_normalize_input`: keep digits if any, else the `ㅉ` characters if
any, else the stripped text. -/
def normalize_input (text : String) : String :=
  let t := pyStrip text
  let digits := t.data.filter Char.isDigit
  if digits ≠ [] then String.mk digits
  else
    let claps := t.data.filter (fun c => c == 'ㅉ')
    if claps ≠ [] then String.mk claps
    else t

/-- `handle_369_turn`: one non-command message processed as a game turn.
`praise` is the oracle for `random.random() < 0.2`, `botJoin` the oracle
for `random.random() < join_rate`; the first component of the result is
the room's game state afterwards (`none` when `_reset_state` popped it). -/
def handle_369_turn (text : String) (praise botJoin : Bool)
    (st : Option G369State) : Option G369State × List GReply :=
  let t := pyStrip text
  if t = "" then (st, [])
  else if t.data.headD ' ' = '!' ∨ t.data.headD ' ' = '/' then (st, [])
  else
    let state := st.getD ⟨false, 0⟩
    if state.active = false then (some state, [])
    else
      let expectedN := state.current + 1
      let expectedAnswer := format_answer expectedN
      if normalize_input t = expectedAnswer then
        if botJoin then
          (some ⟨true, expectedN + 1⟩,
            (if praise then [GReply.praise (expectedN + 1)] else []) ++
              [GReply.bot (format_answer (expectedN + 1))])
        else
          (some ⟨true, expectedN⟩,
            if praise then [GReply.praise (expectedN + 1)] else [])
      else
        (none, [GReply.gameOver expectedN expectedAnswer])

/- ─────────────────── spec-side time-format predicate ──────────────────── -/

/-- Split a character list at `:` separators, keeping empty pieces. -/
def splitOnColon : List Char → List Char → List (List Char)
  | [], acc => [acc.reverse]
  | c :: rest, acc =>
    if c = ':' then acc.reverse :: splitOnColon rest []
    else splitOnColon rest (c :: acc)

/-- Modelled from the spec: section 4.1 says `create(room, creator,
timeSpec, title)` "parses `timeSpec` as `HH:MM` or integer minutes; fails
with `InvalidTimeFormat` on no match".  No such parser exists anywhere in
`bots/party.py`; this predicate states only the membership test of the
spec's time grammar so claim C5 can be compared with the code. -/
def specTimeSpecMatches (s : String) : Bool :=
  (match splitOnColon s.data [] with
    | [h, m] =>
      !h.isEmpty && h.all Char.isDigit && !m.isEmpty && m.all Char.isDigit
    | _ => false) ||
  isDigitStr s

/- ─────────────────────── shared sample states ─────────────────────────── -/

/-- Room 1 after `create_party` by user 10 ("Alice"). -/
def sAlice : PState := (create_party 1 10 "Alice" "" []).1

/-- … after the owner force-adds "Bob". -/
def sAB : PState := (add_member_by_master 1 10 "Bob" sAlice).1

/-- … after the owner force-adds "Carl" (two sentinel-id members). -/
def sABC : PState := (add_member_by_master 1 10 "Carl" sAB).1

/-- … after the owner force-adds "Dave" (party at capacity 4/4). -/
def sABCD : PState := (add_member_by_master 1 10 "Dave" sABC).1

theorem reachable_sABCD : Reachable sABCD :=
  Reachable.step (.addMember 1 10 "Dave") _
    (Reachable.step (.addMember 1 10 "Carl") _
      (Reachable.step (.addMember 1 10 "Bob") _
        (Reachable.step (.create 1 10 "Alice" "") _ Reachable.init)))

theorem reachable_sABC : Reachable sABC :=
  Reachable.step (.addMember 1 10 "Carl") _
    (Reachable.step (.addMember 1 10 "Bob") _
      (Reachable.step (.create 1 10 "Alice" "") _ Reachable.init))

/-- The party literal stored in `sAlice`. -/
def pAlice : Party :=
  ⟨1, "파티", 4, [⟨10, "Alice", none, some true⟩], 10, "Alice", false⟩

/-- The full party literal stored in `sABCD`. -/
def pABCD : Party :=
  ⟨1, "파티", 4,
    [⟨10, "Alice", none, some true⟩, ⟨0, "Bob", none, none⟩,
      ⟨0, "Carl", none, none⟩, ⟨0, "Dave", none, none⟩],
    10, "Alice", false⟩

theorem sAlice_eq : sAlice = [(1, [(10, pAlice)])] := rfl

theorem sABCD_eq : sABCD = [(1, [(10, pABCD)])] := rfl

/- ───────────────────────── claim theorems ─────────────────────────────── -/

/-- C4: a create-party command (normal or raid) issued while the sender
already owns a party in the room is rejected with the duplicate-party
reply and leaves the whole registry unchanged. -/
theorem C4_duplicate_create_rejected :
    ∀ (room owner : Int) (ownerName param : String) (s : PState)
      (rp : RoomParties) (p : Party),
      alookup room s = some rp → alookup owner rp = some p →
      create_party room owner ownerName param s = (s, [.duplicateParty p]) ∧
      create_raid_party room owner ownerName param s =
        (s, [.duplicateParty p]) := by
  intro room owner ownerName param s rp p hrp hp
  constructor
  · simp only [create_party, hrp, Option.getD_some, hp]
  · simp only [create_raid_party, hrp, Option.getD_some, hp]

/-- C4 witness: the concrete second create against `sAlice` is rejected
and the registry is unchanged. -/
theorem C4_duplicate_create_witness :
    create_party 1 10 "Alice" "둘째" sAlice =
      (sAlice, [PReply.duplicateParty pAlice]) ∧
    create_raid_party 1 10 "Alice" "둘째" sAlice =
      (sAlice, [PReply.duplicateParty pAlice]) :=
  C4_duplicate_create_rejected 1 10 "Alice" "둘째" sAlice [(10, pAlice)]
    pAlice rfl rfl

/-- C5 counterexample: `"abc"` matches neither `HH:MM` nor an integer
minute count, yet `create_party` does not fail with any time-format
error — it succeeds and uses `"abc"` as the party title.  The module
contains no time parsing and schedules no timer. -/
theorem C5_counterexample :
    specTimeSpecMatches "abc" = false ∧
    (create_party 1 10 "Alice" "abc" []).2 =
      [PReply.createdParty
        ⟨1, "abc", 4, [⟨10, "Alice", none, some true⟩], 10, "Alice",
          false⟩] :=
  ⟨rfl, rfl⟩

/-- C5 amended: `create_party` performs no time parsing at all — its
parameter is parsed by `_parse_party_create_args` into a title and an
optional class, creation succeeds for every parameter whenever the sender
owns no party in the room, and no timer is scheduled (the module has no
timers). -/
theorem C5_amended_no_time_parse :
    ∀ (room owner : Int) (ownerName param : String) (s : PState),
      alookup owner ((alookup room s).getD []) = none →
      ∃ p : Party,
        create_party room owner ownerName param s =
          (aset room (aset owner p ((alookup room s).getD [])) s,
            [PReply.createdParty p]) ∧
        p.title = (parse_party_create_args param).1 ∧
        p.members =
          [⟨owner, ownerName, (parse_party_create_args param).2,
            some true⟩] := by
  intro room owner ownerName param s hnone
  refine ⟨⟨next_party_id ((alookup room s).getD []),
    (parse_party_create_args param).1, 4,
    [⟨owner, ownerName, (parse_party_create_args param).2, some true⟩],
    owner, ownerName, false⟩, ?_, rfl, rfl⟩
  simp only [create_party, hnone]

/-- C5 amended, witness: creating with the non-time parameter `"abc"` in
the empty registry succeeds. -/
theorem C5_amended_witness :
    ∃ p : Party,
      create_party 1 10 "Alice" "abc" [] =
        (aset 1 (aset 10 p ((alookup 1 ([] : PState)).getD [])) [],
          [PReply.createdParty p]) ∧
      p.title = (parse_party_create_args "abc").1 ∧
      p.members =
        [⟨10, "Alice", (parse_party_create_args "abc").2, some true⟩] :=
  C5_amended_no_time_parse 1 10 "Alice" "abc" [] rfl

/-- C9: `_next_party_id` returns the smallest positive integer unused as a
party id in the room, and a successfully created party receives that id,
which therefore differs from the id of every existing party in the room. -/
theorem C9_lowest_free_id :
    (∀ rp : RoomParties,
        next_party_id rp ∉ rp.map (fun e => e.2.party_id) ∧
        1 ≤ next_party_id rp ∧
        ∀ k, 1 ≤ k → k < next_party_id rp →
          k ∈ rp.map (fun e => e.2.party_id)) ∧
    (∀ (room owner : Int) (ownerName param : String) (s : PState)
        (rp : RoomParties),
        alookup room s = some rp → alookup owner rp = none →
        ∃ p : Party,
          create_party room owner ownerName param s =
            (aset room (aset owner p rp) s, [PReply.createdParty p]) ∧
          p.party_id = next_party_id rp ∧
          ∀ pe ∈ rp, pe.2.party_id ≠ p.party_id) := by
  constructor
  · exact next_party_id_spec
  · intro room owner ownerName param s rp hrp hnone
    refine ⟨⟨next_party_id rp, (parse_party_create_args param).1, 4,
      [⟨owner, ownerName, (parse_party_create_args param).2, some true⟩],
      owner, ownerName, false⟩, ?_, rfl, ?_⟩
    · simp only [create_party, hrp, Option.getD_some, hnone]
    · intro pe hpe hcontra
      exact (next_party_id_spec rp).1 (List.mem_map.mpr ⟨pe, hpe, hcontra⟩)

/-- C9 witness: in a room whose only party has id 1, the next id is 2 and
a second owner's create receives it. -/
theorem C9_lowest_free_id_witness :
    (next_party_id [(10, pAlice)] ∉
        ([(10, pAlice)] : RoomParties).map (fun e => e.2.party_id) ∧
      1 ≤ next_party_id [(10, pAlice)] ∧
      ∀ k, 1 ≤ k → k < next_party_id [(10, pAlice)] →
        k ∈ ([(10, pAlice)] : RoomParties).map (fun e => e.2.party_id)) ∧
    ∃ p : Party,
      create_party 1 11 "Bea" "" sAlice =
        (aset 1 (aset 11 p [(10, pAlice)]) sAlice,
          [PReply.createdParty p]) ∧
      p.party_id = next_party_id [(10, pAlice)] ∧
      ∀ pe ∈ ([(10, pAlice)] : RoomParties),
        pe.2.party_id ≠ p.party_id :=
  ⟨C9_lowest_free_id.1 [(10, pAlice)],
    C9_lowest_free_id.2 1 11 "Bea" "" sAlice [(10, pAlice)] rfl rfl⟩

/-- C6 counterexample: the claim says a party is removed only by owner
deletion, timer fire, or the last member leaving, but the midnight
rollover of `_ensure_today_state` clears the whole registry: `sAlice`
holds a live party, the date change wipes it, and the wiping event is
neither a delete nor a leave (and no timer exists in the module at all). -/
theorem C6_counterexample :
    partyPresent 1 10 sAlice = true ∧
    ensure_today_state 20260102 (some 20260101, sAlice) =
      (some 20260102, ([] : PState)) ∧
    applyEvent PEvent.reset sAlice = [] ∧
    partyPresent 1 10 (applyEvent PEvent.reset sAlice) = false ∧
    PEvent.reset ≠ PEvent.delete 1 10 ∧
    PEvent.reset ≠ PEvent.leave 1 10 :=
  ⟨rfl, rfl, rfl, rfl, by decide, by decide⟩

/-- C6 amended: a party disappears from the registry only through the
sender-owned delete command, a leave command in its room (owner leaving
or the last member leaving), or the whole-registry reset that
`_ensure_today_state` performs when the server date changes; no other
command removes a party (the module schedules no timers, so no
timer-fire removal exists). -/
theorem C6_amended_removal :
    ∀ (e : PEvent) (s : PState) (r o : Int),
      partyPresent r o s = true →
      partyPresent r o (applyEvent e s) = false →
      e = PEvent.reset ∨ e = PEvent.delete r o ∨
        ∃ u, e = PEvent.leave r u := by
  intro e s r o hpre hpost
  cases e with
  | create room owner ownerName param =>
    simp only [applyEvent] at hpost
    rw [present_create hpre] at hpost
    simp at hpost
  | createRaid room owner ownerName param =>
    simp only [applyEvent] at hpost
    rw [present_createRaid hpre] at hpost
    simp at hpost
  | join room user userName param =>
    simp only [applyEvent] at hpost
    rw [present_join hpre] at hpost
    simp at hpost
  | addMember room owner param =>
    simp only [applyEvent] at hpost
    rw [present_addMember hpre] at hpost
    simp at hpost
  | kick room owner param =>
    simp only [applyEvent] at hpost
    rw [present_kick hpre] at hpost
    simp at hpost
  | leave room user =>
    simp only [applyEvent] at hpost
    have h1 := leave_removes_only_room hpre hpost
    exact Or.inr (Or.inr ⟨user, by rw [h1]⟩)
  | delete room user =>
    simp only [applyEvent] at hpost
    obtain ⟨h1, h2⟩ := delete_removes_only_own hpre hpost
    exact Or.inr (Or.inl (by rw [h1, h2]))
  | showStatus room =>
    simp only [applyEvent] at hpost
    rw [hpre] at hpost
    simp at hpost
  | promote room user =>
    simp only [applyEvent] at hpost
    rw [hpre] at hpost
    simp at hpost
  | reset => exact Or.inl rfl

/-- C6 amended, witness: the concrete owner delete against `sAlice`
removes the party and is classified as a delete. -/
theorem C6_amended_witness :
    PEvent.delete 1 10 = PEvent.reset ∨
    PEvent.delete 1 10 = PEvent.delete 1 10 ∨
    ∃ u, PEvent.delete 1 10 = PEvent.leave 1 u :=
  C6_amended_removal (PEvent.delete 1 10) sAlice 1 10 rfl rfl

/-- C7: every lottery code the system produces is a three-character
decimal-digit string with value in `[0, 999]`: the ticket issued by
`/복권자동` is `f"{randint(0,999):03d}"`, and the winning number of the
daily draw is either one of the tickets' codes or such a formatted random
number. -/
theorem C7_lottery_codes :
    ∀ (n : Nat) (uid : Int) (roomId todayStr : String) (db : DB)
      (tickets : List TicketInfo) (hits : List Bool) (cands : List Nat)
      (fallback : Nat),
      n ≤ 999 →
      (∀ t ∈ tickets, isCode3 t.numbers) →
      (∀ c ∈ cands, c ≤ 999) →
      fallback ≤ 999 →
      isCode3 (format3 n) ∧
      charsVal (format3 n).data = n ∧
      (db.lotto.find? (fun t => t.user_id == uid && t.is_drawn == false) =
          none →
        (lotto_auto_command uid roomId todayStr n db).2 =
          .issuedTicket (format3 n)) ∧
      isCode3 (pickWinningNumber tickets hits cands fallback) := by
  intro n uid roomId todayStr db tickets hits cands fallback hn hts hc hfb
  refine ⟨format3_isCode3 hn, format3_val n, ?_, ?_⟩
  · intro hnone
    simp only [lotto_auto_command, hnone]
  · unfold pickWinningNumber
    cases hz : (tickets.zip hits).find? (fun p => p.2) with
    | some p =>
      obtain ⟨t, b⟩ := p
      simp only [hz]
      exact hts t (List.of_mem_zip (List.mem_of_find?_eq_some hz)).1
    | none =>
      simp only [hz]
      cases hf : (cands.take 1000).find?
          (fun c =>
            !((tickets.map (fun t => t.numbers)).contains (format3 c))) with
      | some c =>
        simp only [hf]
        exact format3_isCode3
          (hc c (List.mem_of_mem_take (List.mem_of_find?_eq_some hf)))
      | none =>
        simp only [hf]
        exact format3_isCode3 hfb

/-- C7 witness: a concrete issuance and draw. -/
theorem C7_lottery_codes_witness :
    isCode3 (format3 7) ∧
    charsVal (format3 7).data = 7 ∧
    (lotto_auto_command 20 "1" "2026-10-12" 7 ⟨[], [], [], []⟩).2 =
      UReply.issuedTicket (format3 7) ∧
    isCode3 (pickWinningNumber [] [] [] 7) :=
  have w := C7_lottery_codes 7 20 "1" "2026-10-12" ⟨[], [], [], []⟩ [] [] []
    7 (by decide) (by intro t ht; simp at ht) (by intro c hc; simp at hc)
    (by decide)
  ⟨w.1, w.2.1, w.2.2.1 rfl, w.2.2.2⟩

/-- A same-day check-in leaves the database unchanged. -/
theorem checkin_noop (yesterday : String) {uid : Int} {today : String}
    {db : DB} {u1 : UserRow}
    (h : userRow uid db = some u1)
    (hlast : u1.last_checkin_date = some today) :
    (checkin_command uid today yesterday db).1 = db := by
  simp only [checkin_command, h, if_pos hlast]

/-- The row stored by a first check-in of the day. -/
theorem checkin_updates (yesterday : String) {uid : Int} {today : String}
    {db : DB} {urow : UserRow}
    (huser : userRow uid db = some urow)
    (hdiff : ¬ urow.last_checkin_date = some today) :
    userRow uid (checkin_command uid today yesterday db).1 =
      some { urow with
        total_checkin := urow.total_checkin + 1,
        consecutive_checkin :=
          if urow.last_checkin_date = some yesterday then
            urow.consecutive_checkin + 1
          else 1,
        last_checkin_date := some today,
        points := urow.points + 10 } := by
  simp only [checkin_command, huser, if_neg hdiff]
  unfold userRow
  dsimp only
  rw [userRow_updateUsers uid
    (fun u =>
      { u with
        total_checkin := urow.total_checkin + 1,
        consecutive_checkin :=
          if urow.last_checkin_date = some yesterday then
            urow.consecutive_checkin + 1
          else 1,
        last_checkin_date := some today,
        points := u.points + 10 })
    (fun u => rfl)]
  unfold userRow at huser
  rw [huser]
  rfl

/-- C3: check-in is idempotent per calendar day — a repeat on the same
day changes nothing, a first check-in of the day credits exactly 10
points once, advances the total counter and stamps today, and a second
check-in right after a first one leaves the database unchanged. -/
theorem C3_checkin_idempotent :
    ∀ (db : DB) (uid : Int) (today yesterday : String) (urow : UserRow),
      userRow uid db = some urow →
      (urow.last_checkin_date = some today →
        checkin_command uid today yesterday db =
          (db, .alreadyChecked urow.total_checkin
            urow.consecutive_checkin)) ∧
      (urow.last_checkin_date ≠ some today →
        (userRow uid (checkin_command uid today yesterday db).1).map
            (fun u => u.points) = some (urow.points + 10) ∧
        (userRow uid (checkin_command uid today yesterday db).1).map
            (fun u => u.total_checkin) = some (urow.total_checkin + 1) ∧
        (userRow uid (checkin_command uid today yesterday db).1).map
            (fun u => u.last_checkin_date) = some (some today)) ∧
      (checkin_command uid today yesterday
          (checkin_command uid today yesterday db).1).1 =
        (checkin_command uid today yesterday db).1 := by
  intro db uid today yesterday urow huser
  refine ⟨?_, ?_, ?_⟩
  · intro hsame
    simp only [checkin_command, huser, if_pos hsame]
  · intro hdiff
    have hrow := checkin_updates yesterday huser hdiff
    exact ⟨by rw [hrow]; rfl, by rw [hrow]; rfl, by rw [hrow]; rfl⟩
  · by_cases hsame : urow.last_checkin_date = some today
    · have h0 := checkin_noop yesterday huser hsame
      rw [h0]
      exact h0
    · have hrow := checkin_updates yesterday huser hsame
      exact checkin_noop yesterday hrow rfl

/-- A shop database whose only user (id 20) has 5 points. -/
def dbPoor : DB :=
  ⟨[⟨20, "Joe", 5, 0, 0, 0, none⟩], [⟨1, "포션", 10, "회복"⟩], [], []⟩

/-- The same shop with the user holding 50 points. -/
def dbRich : DB :=
  ⟨[⟨20, "Joe", 50, 0, 0, 0, none⟩], [⟨1, "포션", 10, "회복"⟩], [], []⟩

/-- C3 witness: the user of `dbPoor` (never checked in) checks in once,
gaining exactly 10 points, and a second check-in the same day is a
no-op. -/
theorem C3_checkin_idempotent_witness :
    (userRow 20 (checkin_command 20 "2026-10-12" "2026-10-11" dbPoor).1).map
        (fun u => u.points) = some ((5 : Int) + 10) ∧
    (userRow 20 (checkin_command 20 "2026-10-12" "2026-10-11" dbPoor).1).map
        (fun u => u.total_checkin) = some (0 + 1) ∧
    (checkin_command 20 "2026-10-12" "2026-10-11"
        (checkin_command 20 "2026-10-12" "2026-10-11" dbPoor).1).1 =
      (checkin_command 20 "2026-10-12" "2026-10-11" dbPoor).1 :=
  have w := C3_checkin_idempotent dbPoor 20 "2026-10-12" "2026-10-11"
    ⟨20, "Joe", 5, 0, 0, 0, none⟩ rfl
  ⟨(w.2.1 (by decide)).1, (w.2.1 (by decide)).2.1, w.2.2⟩

/-- C2: a purchase whose price exceeds the buyer's current points is
rejected with the insufficient-points reply and leaves the database
(points, spent points, inventory) unchanged; a successful purchase
decrements the balance by the price — leaving it non-negative — credits
the spent counter and increments the inventory row by one. -/
theorem C2_purchase_guard :
    ∀ (db : DB) (uid : Int) (param nowTime : String) (item : Item)
      (urow : UserRow),
      pyStrip param ≠ "" →
      db.items.find? (fun i => i.item_name == pyStrip param) = some item →
      userRow uid db = some urow →
      (urow.points < item.price →
        buy_command uid param nowTime db =
          (db, .insufficient urow.points item.price)) ∧
      (item.price ≤ urow.points →
        (userRow uid (buy_command uid param nowTime db).1).map
            (fun u => u.points) = some (urow.points - item.price) ∧
        0 ≤ urow.points - item.price ∧
        (userRow uid (buy_command uid param nowTime db).1).map
            (fun u => u.spent_points) =
          some (urow.spent_points + item.price) ∧
        invQty uid item.item_id (buy_command uid param nowTime db).1 =
          invQty uid item.item_id db + 1) := by
  intro db uid param nowTime item urow hne hitem huser
  constructor
  · intro hlt
    simp only [buy_command, if_neg hne, hitem, huser, if_pos hlt]
  · intro hge
    have hnlt : ¬ urow.points < item.price := by omega
    simp only [buy_command, if_neg hne, hitem, huser, if_neg hnlt]
    cases hinv : db.inventory.find?
        (fun r => r.user_id == uid && r.item_id == item.item_id) with
    | some r =>
      simp only [hinv]
      refine ⟨?_, by omega, ?_, ?_⟩
      · unfold userRow
        dsimp only
        rw [userRow_updateUsers uid (fun u =>
          { u with
            points := u.points - item.price,
            spent_points := u.spent_points + item.price }) (fun u => rfl)]
        unfold userRow at huser
        rw [huser]
        rfl
      · unfold userRow
        dsimp only
        rw [userRow_updateUsers uid (fun u =>
          { u with
            points := u.points - item.price,
            spent_points := u.spent_points + item.price }) (fun u => rfl)]
        unfold userRow at huser
        rw [huser]
        rfl
      · unfold invQty
        dsimp only
        rw [findInv_updateFirstInv uid item.item_id
          (fun r => { r with quantity := r.quantity + 1 })
          (fun r => ⟨rfl, rfl⟩), hinv]
        rfl
    | none =>
      simp only [hinv]
      refine ⟨?_, by omega, ?_, ?_⟩
      · unfold userRow
        dsimp only
        rw [userRow_updateUsers uid (fun u =>
          { u with
            points := u.points - item.price,
            spent_points := u.spent_points + item.price }) (fun u => rfl)]
        unfold userRow at huser
        rw [huser]
        rfl
      · unfold userRow
        dsimp only
        rw [userRow_updateUsers uid (fun u =>
          { u with
            points := u.points - item.price,
            spent_points := u.spent_points + item.price }) (fun u => rfl)]
        unfold userRow at huser
        rw [huser]
        rfl
      · unfold invQty
        dsimp only
        rw [find?_append_none hinv, hinv]
        simp [List.find?]

/-- C2 witness: with 5 points a 10-point item is refused and the database
is untouched; with 50 points the purchase succeeds, leaving 40 points,
10 spent and one item in the inventory. -/
theorem C2_purchase_guard_witness :
    buy_command 20 "포션" "now" dbPoor =
      (dbPoor, UReply.insufficient 5 10) ∧
    (userRow 20 (buy_command 20 "포션" "now" dbRich).1).map
        (fun u => u.points) = some ((50 : Int) - 10) ∧
    (userRow 20 (buy_command 20 "포션" "now" dbRich).1).map
        (fun u => u.spent_points) = some ((0 : Int) + 10) ∧
    invQty 20 1 (buy_command 20 "포션" "now" dbRich).1 =
      invQty 20 1 dbRich + 1 :=
  have w1 := C2_purchase_guard dbPoor 20 "포션" "now" ⟨1, "포션", 10, "회복"⟩
    ⟨20, "Joe", 5, 0, 0, 0, none⟩ (by decide) rfl rfl
  have w2 := C2_purchase_guard dbRich 20 "포션" "now" ⟨1, "포션", 10, "회복"⟩
    ⟨20, "Joe", 50, 0, 0, 0, none⟩ (by decide) rfl rfl
  ⟨w1.1 (by decide), (w2.2 (by decide)).1, (w2.2 (by decide)).2.2.1,
    (w2.2 (by decide)).2.2.2⟩

/-- C1: in every reachable registry state no party's member count exceeds
its capacity (8 for raid parties, 4 otherwise); a join by a non-member
against a party already at capacity, and an owner member-add against a
party already at capacity, are both rejected with the party-full reply
and leave the registry unchanged. -/
theorem C1_party_capacity :
    (∀ s : PState, Reachable s → ∀ re ∈ s, ∀ pe ∈ re.2,
        pe.2.members.length ≤ pe.2.max_members ∧
        pe.2.max_members = (if pe.2.is_raid then 8 else 4)) ∧
    (∀ (room user : Int) (userName param : String) (s : PState)
        (rp : RoomParties) (oid : Int) (cls : Option String)
        (im : Option Bool) (p : Party),
        alookup room s = some rp → rp ≠ [] →
        joinFindTarget rp (splitWs (pyStrip param)) =
          JoinTarget.found oid cls im →
        alookup oid rp = some p →
        p.members.all (fun m => !(m.id == user)) = true →
        p.members.length ≥ p.max_members →
        join_party room user userName param s =
          (s, [.partyFull p.max_members])) ∧
    (∀ (room owner : Int) (param : String) (s : PState)
        (rp : RoomParties) (p : Party),
        alookup room s = some rp → rp ≠ [] →
        alookup owner rp = some p →
        pyStrip param ≠ "" →
        p.members.length ≥ p.max_members →
        add_member_by_master room owner param s =
          (s, [.partyFull p.max_members])) := by
  refine ⟨?_, ?_, ?_⟩
  · intro s hs re hre pe hpe
    obtain ⟨h1, h2, _⟩ := reachable_stateInv hs re hre pe hpe
    exact ⟨h1, h2⟩
  · intro room user userName param s rp oid cls im p hrp hne hfind hp hall
      hfull
    have hany : (p.members.any fun m => m.id == user) = false := by
      by_contra hc
      rw [Bool.not_eq_false] at hc
      obtain ⟨m, hm, hmid⟩ := List.any_eq_true.mp hc
      have := List.all_eq_true.mp hall m hm
      simp [hmid] at this
    simp [join_party, hrp, hne, hfind, hp, hany, hfull]
  · intro room owner param s rp p hrp hne hp hparam hfull
    simp [add_member_by_master, hrp, hne, hp, hparam, hfull]

/-- C1 witness: the capacity bound on a concrete reachable state, and the
concrete rejections against the full party of `sABCD`. -/
theorem C1_party_capacity_witness :
    (∀ re ∈ sABCD, ∀ pe ∈ re.2,
        pe.2.members.length ≤ pe.2.max_members ∧
        pe.2.max_members = (if pe.2.is_raid then 8 else 4)) ∧
    join_party 1 20 "Joe" "1" sABCD = (sABCD, [PReply.partyFull 4]) ∧
    add_member_by_master 1 10 "Eve" sABCD = (sABCD, [PReply.partyFull 4]) :=
  ⟨C1_party_capacity.1 sABCD reachable_sABCD,
    C1_party_capacity.2.1 1 20 "Joe" "1" sABCD [(10, pABCD)] 10 none none
      pABCD rfl (by decide) rfl rfl (by decide) (by decide),
    C1_party_capacity.2.2 1 10 "Eve" sABCD [(10, pABCD)] pABCD rfl
      (by decide) rfl (by decide) (by decide)⟩

/-- The party literal stored in `sABC`. -/
def pABC : Party :=
  ⟨1, "파티", 4,
    [⟨10, "Alice", none, some true⟩, ⟨0, "Bob", none, none⟩,
      ⟨0, "Carl", none, none⟩],
    10, "Alice", false⟩

theorem sABC_eq : sABC = [(1, [(10, pABC)])] := rfl

/-- C8 counterexample: two owner member-adds (create, add "Bob", add
"Carl") reach a party whose member-id list is `[10, 0, 0]` — the
sentinel id 0 of `add_member_by_master` occurs twice, so a member id can
repeat in a reachable party. -/
theorem C8_counterexample :
    Reachable sABC ∧
    ((alookup 1 sABC).bind (alookup 10)).map
        (fun p => p.members.map (fun m => m.id)) =
      some [10, 0, 0] ∧
    ((alookup 1 sABC).bind (alookup 10)).map
        (fun p => (p.members.filter (fun m => m.id == 0)).length) =
      some 2 :=
  ⟨reachable_sABC, rfl, rfl⟩

/-- C8 amended: in every reachable party every *nonzero* member id occurs
at most once; only the sentinel id 0 used by `add_member_by_master` for
arbitrary-name members may repeat. -/
theorem C8_amended_nonzero_unique :
    ∀ s : PState, Reachable s → ∀ re ∈ s, ∀ pe ∈ re.2, ∀ i : Int,
      i ≠ 0 → (pe.2.members.filter (fun m => m.id == i)).length ≤ 1 := by
  intro s hs re hre pe hpe i hi
  exact (reachable_stateInv hs re hre pe hpe).2.2 i hi

/-- C8 amended, witness: the owner id 10 occurs at most once in the
concrete reachable party of `sABC`. -/
theorem C8_amended_witness :
    (pABC.members.filter (fun m => m.id == 10)).length ≤ 1 :=
  C8_amended_nonzero_unique sABC reachable_sABC (1, [(10, pABC)])
    (by rw [sABC_eq]; exact List.mem_singleton.mpr rfl) (10, pABC)
    (List.mem_singleton.mpr rfl) 10 (by decide)

/-- C10 counterexample: with the game active at 0, the correct answer
`"1"` advances the counter by *two* when the bot's random interjection
fires (`random.random() < join_rate`): the handler applies the user's
turn and then `_bot_take_turn` immediately takes the next one, so the
counter is not advanced by exactly one. -/
theorem C10_counterexample :
    handle_369_turn "1" false true (some ⟨true, 0⟩) =
      (some ⟨true, 2⟩, [GReply.bot "2"]) ∧
    (2 : Nat) ≠ 0 + 1 :=
  ⟨rfl, by decide⟩

/-- C10 amended: the expected answer for `n` is its decimal string when
no digit is 3, 6 or 9 and `ㅉ` repeated once per such digit otherwise;
while a game is active, a non-command non-empty message normalising to
the expected answer advances the counter by one — plus one more when the
bot interjects — and any other such message removes the room's game
state. -/
theorem C10_amended_turn :
    (∀ n : Nat,
        ((decRepr n).countP (fun c => c == '3' || c == '6' || c == '9') =
            0 →
          format_answer n = String.mk (decRepr n)) ∧
        (0 < (decRepr n).countP
            (fun c => c == '3' || c == '6' || c == '9') →
          format_answer n =
            String.mk (List.replicate
              ((decRepr n).countP
                (fun c => c == '3' || c == '6' || c == '9')) 'ㅉ'))) ∧
    (∀ (text : String) (praise botJoin : Bool) (cur : Nat),
        pyStrip text ≠ "" →
        (pyStrip text).data.headD ' ' ≠ '!' →
        (pyStrip text).data.headD ' ' ≠ '/' →
        (normalize_input (pyStrip text) = format_answer (cur + 1) →
          (handle_369_turn text praise botJoin (some ⟨true, cur⟩)).1 =
            some ⟨true, cur + 1 + (if botJoin then 1 else 0)⟩) ∧
        (normalize_input (pyStrip text) ≠ format_answer (cur + 1) →
          (handle_369_turn text praise botJoin (some ⟨true, cur⟩)).1 =
            none)) := by
  constructor
  · intro n
    constructor
    · intro h0
      simp [format_answer, h0]
    · intro hpos
      have h0 : ¬ ((decRepr n).countP
          (fun c => c == '3' || c == '6' || c == '9') = 0) := by omega
      simp only [format_answer]
      rw [if_neg h0]
  · intro text praise botJoin cur h1 h2 h3
    have hhead : ¬ (((pyStrip text).data.headD ' ') = '!' ∨
        ((pyStrip text).data.headD ' ') = '/') := by
      intro hor
      cases hor with
      | inl h => exact h2 h
      | inr h => exact h3 h
    constructor
    · intro heq
      simp only [handle_369_turn, if_neg h1, Option.getD_some]
      rw [if_neg hhead, if_neg (show ¬ ((G369State.mk true cur).active =
        false) by simp), if_pos heq]
      cases botJoin
      · simp
      · simp
    · intro hne
      simp only [handle_369_turn, if_neg h1, Option.getD_some]
      rw [if_neg hhead, if_neg (show ¬ ((G369State.mk true cur).active =
        false) by simp), if_neg hne]

/-- C10 amended, witness: `3` expects `ㅉ`; a correct `"1"` without the
bot advances the counter to exactly 1, and a wrong message ends the
game. -/
theorem C10_amended_witness :
    format_answer 3 =
      String.mk (List.replicate
        ((decRepr 3).countP (fun c => c == '3' || c == '6' || c == '9'))
        'ㅉ') ∧
    (handle_369_turn "1" false false (some ⟨true, 0⟩)).1 =
      some ⟨true, 0 + 1 + (if false then 1 else 0)⟩ ∧
    (handle_369_turn "x" false false (some ⟨true, 0⟩)).1 = none :=
  ⟨(C10_amended_turn.1 3).2 (by decide),
    (C10_amended_turn.2 "1" false false 0 (by decide) (by decide)
      (by decide)).1 (by decide),
    (C10_amended_turn.2 "x" false false 0 (by decide) (by decide)
      (by decide)).2 (by decide)⟩

end SaiasBot
